import Mathlib

/-!
Shallow embedding of `tools/triage_py/triage_version.py`.

The script enumerates version directories, orders them (semantic versions via
`packaging.version.Version`, commit hashes via a `git rev-list` query), builds a
version-gated command line for each build, runs it with a timeout, and in
compare mode reports the boundaries where exit code or (noise-filtered,
trimmed) output changes.

Machine integers are modelled as `Nat`/`Int`; subprocess interaction is
modelled by oracle inputs (`GitResult`, `ExecOutcome`); printed output is a
list of `Out` items, one per Python `print` call.
-/

namespace Triage

/-- Strip trailing zero components of a parsed version.  This mirrors the
comparison key that `packaging.version` builds for a plain numeric release:
trailing zeros are insignificant (`1.0` compares equal to `1`). -/
def stripTrailingZeros (v : List Nat) : List Nat :=
  (v.reverse.dropWhile (fun n => n = 0)).reverse

/-- Lexicographic less-or-equal on numeric component lists, the order Python
uses on tuples of numbers: a shorter list precedes any proper extension. -/
def lexLE : List Nat → List Nat → Bool
  | [], _ => true
  | _ :: _, [] => false
  | a :: as, b :: bs => decide (a < b) || (decide (a = b) && lexLE as bs)

/-- Order on parsed versions, modelling `Version(x) <= Version(y)` from
`packaging.version` for the plain numeric releases this tool works with:
trailing zeros are dropped, then components compare numerically,
lexicographically. -/
def verLE (a b : List Nat) : Bool :=
  lexLE (stripTrailingZeros a) (stripTrailingZeros b)

/-- Reversed order, modelling `Version(x) >= Version(y)`. -/
def verGE (a b : List Nat) : Bool := verLE b a

/-- Digit characters of a numeric string, folded into the number they denote. -/
def digitsToNat (l : List Char) : Nat :=
  l.foldl (fun n c => n * 10 + (c.toNat - 48)) 0

/-- Split a character list at every occurrence of the separator, keeping empty
segments, as Python `str.split(sep)` does. -/
def splitOnChar (c : Char) : List Char → List (List Char)
  | [] => [[]]
  | x :: xs =>
    match splitOnChar c xs with
    | [] => if x = c then [[], []] else [[x]]
    | y :: ys => if x = c then [] :: y :: ys else (x :: y) :: ys

/-- Parse one dotted component: a nonempty all-digit segment. -/
def parseNatComp (l : List Char) : Option Nat :=
  if l.isEmpty then none
  else if l.all (fun c => c.isDigit) then some (digitsToNat l)
  else none

/-- Parse a directory name as a plain numeric release version, the successful
case of the script's `Version(versions[0])` probe.  Names that
`packaging.version` rejects (commit hashes) yield `none`. -/
def parseVersion (s : String) : Option (List Nat) :=
  (splitOnChar '.' s.toList).mapM parseNatComp

/-- Sort key comparison for `versions.sort(key=Version)`.  A name that does
not parse is given the empty key; the script only reaches this sort when every
name parses, so the default is never observed there. -/
def versionKeyLE (a b : String) : Bool :=
  verLE ((parseVersion a).getD []) ((parseVersion b).getD [])

/-- Propositional form of the sort-key order. -/
def versionOrder (a b : String) : Prop := versionKeyLE a b = true

instance : DecidableRel versionOrder := fun a b => Bool.decEq (versionKeyLE a b) true

/-- Model of `versions.sort(key=Version)` (line 62): a stable ascending sort
by parsed version precedence. -/
def sortVersions (vs : List String) : List String :=
  List.insertionSort versionOrder vs

/-- Parsed command-line arguments (the `argparse` section, lines 9-20). -/
structure Args where
  dir : String
  infile : String
  repo : Option String
  compare : Bool
  verbose : Bool
  debug : Bool
  debug_warnings : Bool
  check_library : Bool
  timeout : Nat
  compact : Bool
deriving DecidableEq

/-- Tokens added together when the version reaches 1.48 (line 115). -/
def suppressFlags : List String :=
  ["--suppress=missingInclude", "--suppress=missingIncludeSystem",
   "--suppress=unmatchedSuppression", "--suppress=unusedFunction"]

/-- Every flag the builder gates, on compare mode or on a version threshold. -/
def gatedFlags : List String :=
  "-q" :: "--debug" :: "--debug-warnings" :: "--check-library" :: "--enable=all"
    :: "--inline-suppr" :: suppressFlags ++ ["--inconclusive"]

/-- Flags gated on a version threshold (all gated flags except `-q`,
which is gated on compare mode alone). -/
def versionGatedFlags : List String :=
  "--debug" :: "--debug-warnings" :: "--check-library" :: "--enable=all"
    :: "--inline-suppr" :: suppressFlags ++ ["--inconclusive"]

/-- Command builder (lines 100-118), as the token list that `cmd.split()`
hands to `Popen` on line 121.  `v` is the parsed running version. -/
def buildCmd (a : Args) (exe : String) (v : List Nat) (input_file : String) : List String :=
  [exe]
  ++ (if a.compare then ["-q"] else [])
  ++ (if a.debug && verGE v [1, 45] then ["--debug"] else [])
  ++ (if a.debug_warnings && verGE v [1, 45] then ["--debug-warnings"] else [])
  ++ (if a.check_library && verGE v [1, 61] then ["--check-library"] else [])
  ++ (if verGE v [1, 39] then ["--enable=all"] else [])
  ++ (if verGE v [1, 40] then ["--inline-suppr"] else [])
  ++ (if verGE v [1, 48] then suppressFlags else [])
  ++ (if verGE v [1, 49] then ["--inconclusive"] else [])
  ++ [input_file]

/-- Outcome of the `git rev-list --abbrev-commit --topo-order` query on a
given commit list: its exit status, stdout split into lines, and stderr. -/
structure GitResult where
  returncode : Int
  stdoutLines : List String
  stderr : String

/-- Model of `sort_commit_hashes` (lines 22-30): a non-zero exit of the git
query prints a message and exits 1, otherwise the query's stdout lines are the
new order. -/
def sort_commit_hashes (git : List String → GitResult) (commits : List String) :
    Except (String × Nat) (List String) :=
  let r := git commits
  if r.returncode ≠ 0 then Except.error ("error: sorting commit hashes failed", 1)
  else Except.ok r.stdoutLines

/-- Removal of the known non-version artifact folder (lines 73-74):
`versions.remove('cppcheck')` drops the first occurrence, guarded by
`versions.count('cppcheck')`. -/
def removeRepoDir (versions : List String) : List String :=
  if 0 < versions.count "cppcheck" then versions.erase "cppcheck" else versions

/-- Result of the setup phase: either the ordering strategy with the ordered
version list, or a fatal user-facing message with the process exit code. -/
inductive SetupResult where
  | ok (useHashes : Bool) (versions : List String)
  | fatal (msg : String) (code : Nat)
deriving DecidableEq

/-- Setup phase of the script (lines 34-79): flag validation, directory
enumeration (`listing` is the subdirectory list), ordering-strategy selection
and ordering.  `Version(versions[0])` succeeding and the keyed sort succeeding
amounts to every name parsing, since the sort evaluates `Version` on each
element inside the same `try` block.  The non-zero-returncode exit of
`sort_commit_hashes` (lines 26-29) is inlined as the fifth branch; the final
two branches mirror lines 76-79. -/
def setup (a : Args) (listing : List String) (git : List String → GitResult) : SetupResult :=
  if a.compact && !a.compare then SetupResult.fatal "error: --compact requires --compare" 1
  else if listing.length = 0 then
    SetupResult.fatal ("error: no versions found in '" ++ a.dir ++ "'") 1
  else if listing.all (fun v => (parseVersion v).isSome) then
    SetupResult.ok false (sortVersions listing)
  else if a.repo.isNone then
    SetupResult.fatal "error: git repository argument required for commit hash sorting" 1
  else if (git (removeRepoDir listing)).returncode ≠ 0 then
    SetupResult.fatal "error: sorting commit hashes failed" 1
  else if (git (removeRepoDir listing)).stdoutLines.length ≠ (removeRepoDir listing).length then
    SetupResult.fatal "error: unexpected amount of versions after commit hash sorting" 1
  else SetupResult.ok true (git (removeRepoDir listing)).stdoutLines

/-- Outcome of one `Popen`/`communicate` interaction with the analyzed binary
(lines 121-128): either it finishes within the timeout with captured stdout,
stderr and returncode, or the timeout expires and the process is killed and
drained, leaving a returncode. -/
inductive ExecOutcome where
  | completed (stdout stderr : String) (returncode : Int)
  | timedOut (returncode : Int)
deriving DecidableEq

/-- RunResult of one invocation (lines 122-130): exit code and combined
output.  A completed run combines `stdout + '\n' + stderr`; a timed-out run
records the literal sentinel `"timeout"`. -/
def runResult : ExecOutcome → Int × String
  | ExecOutcome.completed o e rc => (rc, o ++ "\n" ++ e)
  | ExecOutcome.timedOut rc => (rc, "timeout")

/-- One per-version iteration input: the directory entry, the version string
(equal to the entry in semantic-version mode, read from `--version` output in
hash mode), and the execution outcome of the built command. -/
structure Run where
  entry : String
  versionStr : String
  outcome : ExecOutcome
deriving DecidableEq

/-- Version label printed for a run (lines 133-136, 158-161, 185-188). -/
def printLabel (useHashes : Bool) (r : Run) : String :=
  if useHashes then r.entry ++ " (" ++ r.versionStr ++ ")" else r.versionStr

/-- Python `str.splitlines` for the newline-normalized text this script
handles (`universal_newlines=True`): split on `'\n'`, a trailing newline not
opening a final empty line. -/
def splitlines (s : String) : List String :=
  let parts := (splitOnChar '\n' s.toList).map String.mk
  if parts.getLast? = some "" then parts.dropLast else parts

/-- Line head that marks an unmatched-suppression information message
(line 150). -/
def suppressionNoiseMark : String := "[*]: (information) Unmatched suppression:"

/-- Python `line.startswith(mark)` for the noise-filter loop. -/
def startsWithMark (line : String) : Bool :=
  suppressionNoiseMark.toList.isPrefixOf line.toList

/-- Python `str.strip()`: drop whitespace from both ends. -/
def strTrim (s : String) : String :=
  String.mk (((s.toList.dropWhile Char.isWhitespace).reverse.dropWhile
    Char.isWhitespace).reverse)

/-- Noise filter (lines 147-152): drop every line that starts with the
unmatched-suppression marker, rebuild the rest each followed by `'\n'`. -/
def noiseFilter (out : String) : String :=
  (splitlines out).foldl
    (fun acc line => if startsWithMark line then acc else acc ++ line ++ "\n") ""

/-- Guard of the noise filter (line 146):
`not use_hashes and (Version(version) >= Version('1.48') or Version(version) <= Version('1.49'))`. -/
def filterGuard (useHashes : Bool) (versionStr : String) : Bool :=
  !useHashes &&
    (verGE ((parseVersion versionStr).getD []) [1, 48]
      || verLE ((parseVersion versionStr).getD []) [1, 49])

/-- Output of a run as compare mode sees it (lines 146-154): noise-filtered
when the guard holds, then stripped of surrounding whitespace. -/
def procOut (useHashes : Bool) (r : Run) : String :=
  strTrim (if filterGuard useHashes r.versionStr then noiseFilter (runResult r.outcome).2
    else (runResult r.outcome).2)

/-- One printed item: `print(ec)` prints an integer, every other print in the
loop prints text. -/
inductive Out where
  | num (n : Int)
  | txt (s : String)
deriving DecidableEq

/-- One compare-mode loop iteration (lines 156-191), from the retained state
`none` (first run) or `some (last_ec, last_out)`: the items printed and the
new retained state.  The extra diagnostics printed under `--verbose`
(lines 170-171 and 175-176) are not part of the model. -/
def compareStep (compact useHashes : Bool) (st : Option (Int × String)) (r : Run) :
    List Out × Option (Int × String) :=
  let ec := (runResult r.outcome).1
  let out := procOut useHashes r
  match st with
  | none => ([Out.txt (printLabel useHashes r)], some (ec, out))
  | some (lec, lout) =>
    let doPrint := decide (lec ≠ ec) || decide (lout ≠ out)
    ((if doPrint then [Out.num lec, Out.txt lout] else [])
      ++ (if !compact || doPrint then [Out.txt (printLabel useHashes r)] else []),
     some (ec, out))

/-- Compare-mode main loop (lines 87-191 with `do_compare`), threading the
retained state through `compareStep`. -/
def compareLoop (compact useHashes : Bool) :
    Option (Int × String) → List Run → List Out × Option (Int × String)
  | st, [] => ([], st)
  | st, r :: rs =>
    let s := compareStep compact useHashes st r
    let t := compareLoop compact useHashes s.2 rs
    (s.1 ++ t.1, t.2)

/-- Trailing flush (lines 193-195): compare mode always prints the final
retained exit code and output once more; `print(None)` prints `"None"`. -/
def finalFlush : Option (Int × String) → List Out
  | none => [Out.txt "None", Out.txt "None"]
  | some (ec, out) => [Out.num ec, Out.txt out]

/-- Whole compare-mode output for a list of runs. -/
def compareMode (compact useHashes : Bool) (runs : List Run) : List Out :=
  let t := compareLoop compact useHashes none runs
  t.1 ++ finalFlush t.2

/-- Retained exit code and processed output of one run. -/
def ecOut (useHashes : Bool) (r : Run) : Int × String :=
  ((runResult r.outcome).1, procOut useHashes r)

/-- Dump mode (lines 132-139, `--compare` absent): label, exit code and raw
output of every run, no comparison, no filtering. -/
def dumpMode (useHashes : Bool) (runs : List Run) : List Out :=
  runs.flatMap (fun r =>
    [Out.txt (printLabel useHashes r), Out.num (runResult r.outcome).1,
     Out.txt (runResult r.outcome).2])

/-- Fixture for the git-failure exit: arguments that are valid on their own. -/
def cArgs : Args :=
  { dir := "builds", infile := "test.c", repo := some "cppcheck-repo",
    compare := true, verbose := false, debug := false, debug_warnings := false,
    check_library := false, timeout := 2, compact := false }

/-- Fixture directory listing: a single commit-hash-like name. -/
def cListing : List String := ["deadbeef"]

/-- Fixture git oracle: the rev-list query fails with a non-zero exit. -/
def cGit : List String → GitResult :=
  fun _ => { returncode := 1, stdoutLines := [], stderr := "fatal: bad revision" }

/-- Fixture run whose output is a plain finding. -/
def flagRun : Run :=
  { entry := "1.50", versionStr := "1.50", outcome := ExecOutcome.completed "x" "" 0 }

/-- Fixture run whose entire output is one unmatched-suppression information line. -/
def noiseRun : Run :=
  { entry := "deadbeef", versionStr := "1.50",
    outcome := ExecOutcome.completed "[*]: (information) Unmatched suppression: missingInclude" "" 0 }

/-- Fixture listing of commit-hash directory names. -/
def hListing : List String := ["deadbeef", "cafe"]

/-- Fixture git oracle that reorders the submitted hashes successfully. -/
def hGit : List String → GitResult :=
  fun _ => { returncode := 0, stdoutLines := ["cafe", "deadbeef"], stderr := "" }

/-- Fixture arguments passing `--compact` without `--compare`. -/
def wArgs : Args := { cArgs with compact := true, compare := false }

/-- Fixture arguments requesting every pass-through flag, with compare mode on. -/
def fArgs : Args :=
  { dir := "builds", infile := "test.c", repo := none, compare := true, verbose := false,
    debug := true, debug_warnings := true, check_library := true, timeout := 2,
    compact := false }

theorem lexLE_refl : ∀ a : List Nat, lexLE a a = true
  | [] => rfl
  | a :: as => by simp [lexLE, lexLE_refl as]

theorem lexLE_total : ∀ a b : List Nat, (lexLE a b || lexLE b a) = true
  | [], _ => by simp [lexLE]
  | _ :: _, [] => by simp [lexLE]
  | a :: as, b :: bs => by
    simp only [lexLE, Bool.or_eq_true, decide_eq_true_eq, Bool.and_eq_true]
    rcases Nat.lt_trichotomy a b with h | h | h
    · exact Or.inl (Or.inl h)
    · subst h
      rcases Bool.or_eq_true _ _ |>.mp (lexLE_total as bs) with h' | h'
      · exact Or.inl (Or.inr ⟨rfl, h'⟩)
      · exact Or.inr (Or.inr ⟨rfl, h'⟩)
    · exact Or.inr (Or.inl h)

theorem lexLE_trans : ∀ a b c : List Nat,
    lexLE a b = true → lexLE b c = true → lexLE a c = true
  | [], _, _, _, _ => rfl
  | _ :: _, [], _, h, _ => by simp [lexLE] at h
  | _ :: _, _ :: _, [], _, h => by simp [lexLE] at h
  | a :: as, b :: bs, c :: cs, h1, h2 => by
    simp only [lexLE, Bool.or_eq_true, decide_eq_true_eq, Bool.and_eq_true] at h1 h2 ⊢
    rcases h1 with h1 | ⟨hab, h1⟩
    · rcases h2 with h2 | ⟨hbc, h2⟩
      · exact Or.inl (Nat.lt_trans h1 h2)
      · exact Or.inl (hbc ▸ h1)
    · rcases h2 with h2 | ⟨hbc, h2⟩
      · exact Or.inl (hab ▸ h2)
      · exact Or.inr ⟨hab.trans hbc, lexLE_trans as bs cs h1 h2⟩

theorem verLE_total (a b : List Nat) : (verLE a b || verLE b a) = true :=
  lexLE_total _ _

theorem verLE_trans {a b c : List Nat} (h1 : verLE a b = true) (h2 : verLE b c = true) :
    verLE a c = true :=
  lexLE_trans _ _ _ h1 h2

theorem versionKeyLE_total (a b : String) : (versionKeyLE a b || versionKeyLE b a) = true :=
  verLE_total _ _

theorem versionKeyLE_trans (a b c : String)
    (h1 : versionKeyLE a b = true) (h2 : versionKeyLE b c = true) :
    versionKeyLE a c = true :=
  verLE_trans h1 h2

theorem verGE_mono {v t u : List Nat} (htu : verLE t u = true) (h : verGE v u = true) :
    verGE v t = true :=
  verLE_trans htu h

theorem mem_ite_nil {α : Type} {x : α} {c : Prop} [Decidable c] {l : List α} :
    (x ∈ if c then l else []) ↔ c ∧ x ∈ l := by
  split
  · simp [*]
  · simp [*]

theorem guard_disj (v : List Nat) : (verGE v [1, 48] || verLE v [1, 49]) = true := by
  cases h : verGE v [1, 48] with
  | true => simp
  | false =>
    rw [Bool.false_or]
    simp only [verGE] at h
    have ht := lexLE_total (stripTrailingZeros [1, 48]) (stripTrailingZeros v)
    rw [Bool.or_eq_true] at ht
    rcases ht with h1 | h1
    · rw [verLE] at h
      rw [h1] at h
      exact Bool.noConfusion h
    · exact verLE_trans h1 (by decide)

theorem strJoin_append_init (l : List String) :
    ∀ x y : String, l.foldl (fun r s => r ++ s) (x ++ y) = x ++ l.foldl (fun r s => r ++ s) y := by
  induction l with
  | nil => intro x y; rfl
  | cons a t ih =>
    intro x y
    simp only [List.foldl_cons, String.append_assoc]
    exact ih x (y ++ a)

theorem strJoin_cons (a : String) (l : List String) :
    String.join (a :: l) = a ++ String.join l := by
  have h := strJoin_append_init l a ""
  rw [String.append_empty] at h
  simpa [String.join] using h

theorem noiseFoldl (lines : List String) :
    ∀ acc : String,
      lines.foldl (fun acc line => if startsWithMark line then acc else acc ++ line ++ "\n") acc
        = acc
          ++ String.join ((lines.filter (fun l => !(startsWithMark l))).map (fun l => l ++ "\n")) := by
  induction lines with
  | nil => intro acc; simp [String.join, String.append_empty]
  | cons a t ih =>
    intro acc
    cases h : startsWithMark a with
    | true => simp [h, ih]
    | false =>
      rw [List.foldl_cons, if_neg (by simp [h]), ih]
      simp [List.filter_cons, h, strJoin_cons, String.append_assoc]

/-- C3: the compare-mode noise-filter guard tests (version >= 1.48 or version <= 1.49);
this disjunction holds for every parsed version, so in semantic-version compare mode the
unmatched-suppression filter is applied to every version's output. -/
theorem noise_guard_spans_all_versions (v : List Nat) (s : String) :
    (verGE v [1, 48] || verLE v [1, 49]) = true ∧ filterGuard false s = true := by
  refine ⟨guard_disj v, ?_⟩
  simp only [filterGuard, Bool.not_false, Bool.true_and]
  exact guard_disj _

/-- C10: the noise filter removes every output line whose text starts with the
unmatched-suppression marker, whatever suppression name follows (not only the four named
messages), and reassembles the remaining lines in their original order, each terminated
by a single newline. -/
theorem noise_filter_drops_marked_lines (s : String) :
    noiseFilter s
      = String.join
          (((splitlines s).filter (fun l => !(startsWithMark l))).map (fun l => l ++ "\n"))
    ∧ noiseFilter "[*]: (information) Unmatched suppression: somethingElse\nkeep\n"
        = "keep\n" := by
  refine ⟨?_, by decide⟩
  simpa using noiseFoldl (splitlines s) ""

/-- C9: in commit-hash compare mode the noise filter is never applied: the guard is false
for every version string, each run's combined output is only whitespace-trimmed, and a
suppression information line (filtered out in semantic-version mode) does trigger a
printed transition. -/
theorem hash_mode_unfiltered (r : Run) (s : String) :
    filterGuard true s = false
    ∧ procOut true r = strTrim (runResult r.outcome).2
    ∧ procOut true noiseRun = "[*]: (information) Unmatched suppression: missingInclude"
    ∧ procOut false noiseRun = ""
    ∧ (compareStep false true (some (0, "")) noiseRun).1
        = [Out.num 0, Out.txt "", Out.txt "deadbeef (1.50)"] := by
  refine ⟨rfl, ?_, by decide, by decide, by decide⟩
  simp [procOut, filterGuard]

/-- C2: in compare mode, for a version after the first, equal exit code and equal
post-filter trimmed output against the retained previous result print no transition (the
previous exit code and output are not emitted), while a difference in either prints the
previous result's exit code and output followed by the current version's label. -/
theorem compare_transition_printing (compact useHashes : Bool) (lec : Int) (lout : String)
    (r : Run) :
    ((runResult r.outcome).1 = lec → procOut useHashes r = lout →
      (compareStep compact useHashes (some (lec, lout)) r).1
        = if compact then [] else [Out.txt (printLabel useHashes r)])
    ∧ (((runResult r.outcome).1 ≠ lec ∨ procOut useHashes r ≠ lout) →
      (compareStep compact useHashes (some (lec, lout)) r).1
        = [Out.num lec, Out.txt lout, Out.txt (printLabel useHashes r)]) := by
  constructor
  · intro h1 h2
    have hd : (decide (lec ≠ (runResult r.outcome).1)
        || decide (lout ≠ procOut useHashes r)) = false := by
      simp [h1, h2]
    simp only [compareStep]
    rw [hd]
    cases compact <;> simp
  · intro h
    have hd : (decide (lec ≠ (runResult r.outcome).1)
        || decide (lout ≠ procOut useHashes r)) = true := by
      rcases h with h | h
      · simp [Ne.symm h]
      · simp [Ne.symm h]
    simp only [compareStep]
    rw [hd]
    simp

/-- C1: the built command contains `-q` exactly when compare mode is on; `--debug` and
`--debug-warnings` exactly when requested and version >= 1.45; `--check-library` exactly
when requested and version >= 1.61; `--enable=all` exactly when version >= 1.39;
`--inline-suppr` exactly when version >= 1.40; the four suppression options exactly when
version >= 1.48; `--inconclusive` exactly when version >= 1.49; and a version below every
threshold yields a command without any of the version-gated flags. -/
theorem gated_flags_thresholds (a : Args) (v : List Nat) (exe input_file : String)
    (hexe : exe ∉ gatedFlags) (hin : input_file ∉ gatedFlags) :
    ("-q" ∈ buildCmd a exe v input_file ↔ a.compare = true)
    ∧ ("--debug" ∈ buildCmd a exe v input_file ↔ a.debug = true ∧ verGE v [1, 45] = true)
    ∧ ("--debug-warnings" ∈ buildCmd a exe v input_file
        ↔ a.debug_warnings = true ∧ verGE v [1, 45] = true)
    ∧ ("--check-library" ∈ buildCmd a exe v input_file
        ↔ a.check_library = true ∧ verGE v [1, 61] = true)
    ∧ ("--enable=all" ∈ buildCmd a exe v input_file ↔ verGE v [1, 39] = true)
    ∧ ("--inline-suppr" ∈ buildCmd a exe v input_file ↔ verGE v [1, 40] = true)
    ∧ (∀ f ∈ suppressFlags, (f ∈ buildCmd a exe v input_file ↔ verGE v [1, 48] = true))
    ∧ ("--inconclusive" ∈ buildCmd a exe v input_file ↔ verGE v [1, 49] = true)
    ∧ (verGE v [1, 39] = false → ∀ f ∈ versionGatedFlags, f ∉ buildCmd a exe v input_file) := by
  simp only [gatedFlags, suppressFlags, List.mem_cons, List.mem_append, List.mem_singleton,
    not_or, List.not_mem_nil] at hexe hin
  obtain ⟨⟨he1, he2, he3, he4, he5, he6, he7, he8, he9, he10, -⟩, he11, -⟩ := hexe
  obtain ⟨⟨hi1, hi2, hi3, hi4, hi5, hi6, hi7, hi8, hi9, hi10, -⟩, hi11, -⟩ := hin
  have hmono : ∀ u : List Nat, verLE [1, 39] u = true → verGE v [1, 39] = false →
      verGE v u = false := by
    intro u hu h39
    cases hc : verGE v u with
    | false => rfl
    | true =>
      have h1 : verGE v [1, 39] = true := verGE_mono hu hc
      rw [h1] at h39
      exact Bool.noConfusion h39
  have main : ("-q" ∈ buildCmd a exe v input_file ↔ a.compare = true)
      ∧ ("--debug" ∈ buildCmd a exe v input_file ↔ a.debug = true ∧ verGE v [1, 45] = true)
      ∧ ("--debug-warnings" ∈ buildCmd a exe v input_file
          ↔ a.debug_warnings = true ∧ verGE v [1, 45] = true)
      ∧ ("--check-library" ∈ buildCmd a exe v input_file
          ↔ a.check_library = true ∧ verGE v [1, 61] = true)
      ∧ ("--enable=all" ∈ buildCmd a exe v input_file ↔ verGE v [1, 39] = true)
      ∧ ("--inline-suppr" ∈ buildCmd a exe v input_file ↔ verGE v [1, 40] = true)
      ∧ (∀ f ∈ suppressFlags, (f ∈ buildCmd a exe v input_file ↔ verGE v [1, 48] = true))
      ∧ ("--inconclusive" ∈ buildCmd a exe v input_file ↔ verGE v [1, 49] = true) := by
    refine ⟨?_, ?_, ?_, ?_, ?_, ?_, ?_, ?_⟩ <;>
      simp [buildCmd, mem_ite_nil, suppressFlags, Ne.symm he1, Ne.symm he2, Ne.symm he3,
        Ne.symm he4, Ne.symm he5, Ne.symm he6, Ne.symm he7, Ne.symm he8, Ne.symm he9,
        Ne.symm he10, Ne.symm he11, Ne.symm hi1, Ne.symm hi2, Ne.symm hi3, Ne.symm hi4,
        Ne.symm hi5, Ne.symm hi6, Ne.symm hi7, Ne.symm hi8, Ne.symm hi9, Ne.symm hi10,
        Ne.symm hi11, and_comm]
  obtain ⟨t1, t2, t3, t4, t5, t6, t7, t8⟩ := main
  refine ⟨t1, t2, t3, t4, t5, t6, t7, t8, ?_⟩
  intro h39 f hf
  have h40 := hmono [1, 40] (by decide) h39
  have h45 := hmono [1, 45] (by decide) h39
  have h48 := hmono [1, 48] (by decide) h39
  have h49 := hmono [1, 49] (by decide) h39
  have h61 := hmono [1, 61] (by decide) h39
  simp only [versionGatedFlags, suppressFlags, List.mem_cons, List.mem_append,
    List.not_mem_nil, or_false] at hf
  rcases hf with (rfl | rfl | rfl | rfl | rfl | rfl | rfl | rfl | rfl) | rfl
  · rw [t2]
    simp [h45]
  · rw [t3]
    simp [h45]
  · rw [t4]
    simp [h61]
  · rw [t5]
    simp [h39]
  · rw [t6]
    simp [h40]
  · rw [t7 _ (by decide)]
    simp [h48]
  · rw [t7 _ (by decide)]
    simp [h48]
  · rw [t7 _ (by decide)]
    simp [h48]
  · rw [t7 _ (by decide)]
    simp [h48]
  · rw [t8]
    simp [h49]

theorem gated_flags_thresholds_witness :
    ("--check-library" ∈ buildCmd fArgs "cppcheck" [1, 61] "test.c"
      ↔ fArgs.check_library = true ∧ verGE [1, 61] [1, 61] = true) :=
  (gated_flags_thresholds fArgs [1, 61] "cppcheck" "test.c" (by decide) (by decide)).2.2.2.1

theorem compare_transition_printing_witness :
    ((runResult flagRun.outcome).1 ≠ 0 ∨ procOut false flagRun ≠ "")
    ∧ (compareStep false false (some (0, "")) flagRun).1
        = [Out.num 0, Out.txt "", Out.txt (printLabel false flagRun)] :=
  ⟨by decide, (compare_transition_printing false false 0 "" flagRun).2 (by decide)⟩

/-- C4: for a set of directory names that all parse as versions, the enumerator's
processing order is an ascending sort by parsed semantic-version precedence (a
permutation of the input, pairwise ordered under the parsed-version order); numeric
components compare numerically, so "1.9" orders before "1.10". -/
theorem semver_sort_spec (vs : List String)
    (h : ∀ v ∈ vs, (parseVersion v).isSome = true) :
    (sortVersions vs).Perm vs
    ∧ List.Pairwise
        (fun a b => ∃ x y,
          parseVersion a = some x ∧ parseVersion b = some y ∧ verLE x y = true)
        (sortVersions vs)
    ∧ sortVersions ["1.10", "1.9"] = ["1.9", "1.10"] := by
  have hperm : (sortVersions vs).Perm vs := List.perm_insertionSort versionOrder vs
  refine ⟨hperm, ?_, by decide⟩
  have htot : IsTotal String versionOrder := by
    constructor
    intro a b
    have ht := versionKeyLE_total a b
    rw [Bool.or_eq_true] at ht
    exact ht
  have htrans : IsTrans String versionOrder := by
    constructor
    intro a b c h1 h2
    exact versionKeyLE_trans a b c h1 h2
  have hs := @List.sorted_insertionSort String versionOrder _ htot htrans vs
  refine List.Pairwise.imp_of_mem ?_ hs
  intro x y hx hy hxy
  have hx2 := h x (hperm.mem_iff.mp hx)
  have hy2 := h y (hperm.mem_iff.mp hy)
  rw [Option.isSome_iff_exists] at hx2 hy2
  obtain ⟨px, hpx⟩ := hx2
  obtain ⟨py, hpy⟩ := hy2
  refine ⟨px, py, hpx, hpy, ?_⟩
  have hk : versionKeyLE x y = true := hxy
  simp only [versionKeyLE, hpx, hpy, Option.getD_some] at hk
  exact hk

theorem semver_sort_spec_witness :
    (∀ v ∈ ["1.10", "1.9"], (parseVersion v).isSome = true)
    ∧ ((sortVersions ["1.10", "1.9"]).Perm ["1.10", "1.9"]
      ∧ List.Pairwise
          (fun a b => ∃ x y,
            parseVersion a = some x ∧ parseVersion b = some y ∧ verLE x y = true)
          (sortVersions ["1.10", "1.9"])
      ∧ sortVersions ["1.10", "1.9"] = ["1.9", "1.10"]) :=
  ⟨by decide, semver_sort_spec ["1.10", "1.9"] (by decide)⟩

/-- C5: in commit-hash mode an entry literally named "cppcheck" is removed before
ordering; the processing order is exactly the line sequence returned by the git
topological-order query; and a count mismatch after ordering yields the documented
fatal message with exit code 1. -/
theorem commit_hash_ordering (a : Args) (listing : List String)
    (git : List String → GitResult)
    (hflag : (a.compact && !a.compare) = false)
    (hne : listing.length ≠ 0)
    (hparse : listing.all (fun v => (parseVersion v).isSome) = false)
    (hrepo : a.repo.isNone = false) :
    (listing.Nodup → "cppcheck" ∉ removeRepoDir listing)
    ∧ ((git (removeRepoDir listing)).returncode = 0 →
        (git (removeRepoDir listing)).stdoutLines.length = (removeRepoDir listing).length →
        setup a listing git = SetupResult.ok true (git (removeRepoDir listing)).stdoutLines)
    ∧ ((git (removeRepoDir listing)).returncode = 0 →
        (git (removeRepoDir listing)).stdoutLines.length ≠ (removeRepoDir listing).length →
        setup a listing git
          = SetupResult.fatal
              "error: unexpected amount of versions after commit hash sorting" 1) := by
  have c1 : ¬((a.compact && !a.compare) = true) := by simp [hflag]
  have c3 : ¬(listing.all (fun v => (parseVersion v).isSome) = true) := by simp [hparse]
  have c4 : ¬(a.repo.isNone = true) := by simp [hrepo]
  refine ⟨?_, ?_, ?_⟩
  · intro hnd
    unfold removeRepoDir
    split
    · exact hnd.not_mem_erase
    · next hcount => exact List.count_eq_zero.mp (Nat.eq_zero_of_not_pos hcount)
  · intro hrc hlen
    unfold setup
    rw [if_neg c1, if_neg hne, if_neg c3, if_neg c4, if_neg (by simp [hrc]),
      if_neg (by simp [hlen])]
  · intro hrc hlen
    unfold setup
    rw [if_neg c1, if_neg hne, if_neg c3, if_neg c4, if_neg (by simp [hrc]), if_pos hlen]

theorem commit_hash_ordering_witness :
    ((cArgs.compact && !cArgs.compare) = false
      ∧ hListing.length ≠ 0
      ∧ hListing.all (fun v => (parseVersion v).isSome) = false
      ∧ cArgs.repo.isNone = false
      ∧ (hGit (removeRepoDir hListing)).returncode = 0
      ∧ (hGit (removeRepoDir hListing)).stdoutLines.length = (removeRepoDir hListing).length)
    ∧ setup cArgs hListing hGit = SetupResult.ok true ["cafe", "deadbeef"] :=
  ⟨⟨by decide, by decide, by decide, by decide, by decide, by decide⟩,
    (commit_hash_ordering cArgs hListing hGit (by decide) (by decide) (by decide)
        (by decide)).2.1 (by decide) (by decide)⟩

/-- C8 (amended): the setup phase terminates with exit status 1, each case after a
user-facing message, in exactly these fatal cases: `--compact` without `--compare`; an
empty version directory; commit-hash entries with no repository argument; a non-zero
exit of the git ordering query; or a post-sort commit count mismatch.  Every fatal exit
carries code 1. -/
theorem fatal_exit_cases (a : Args) (listing : List String) (git : List String → GitResult) :
    (∀ msg c, setup a listing git = SetupResult.fatal msg c → c = 1)
    ∧ ((∃ msg, setup a listing git = SetupResult.fatal msg 1)
      ↔ ((a.compact = true ∧ a.compare = false)
        ∨ listing = []
        ∨ (listing.all (fun v => (parseVersion v).isSome) = false ∧ a.repo = none)
        ∨ (listing.all (fun v => (parseVersion v).isSome) = false ∧ a.repo ≠ none
            ∧ (git (removeRepoDir listing)).returncode ≠ 0)
        ∨ (listing.all (fun v => (parseVersion v).isSome) = false ∧ a.repo ≠ none
            ∧ (git (removeRepoDir listing)).returncode = 0
            ∧ (git (removeRepoDir listing)).stdoutLines.length
                ≠ (removeRepoDir listing).length))) := by
  constructor
  · intro msg c hset
    unfold setup at hset
    split_ifs at hset with h1 h2 h3 h4 h5 h6
    all_goals cases hset
    all_goals rfl
  · have hallfalse : ∀ b : Bool, ¬(b = true) → b = false := by
      intro b hb
      cases b
      · rfl
      · exact absurd rfl hb
    unfold setup
    split_ifs with h1 h2 h3 h4 h5 h6
    · rw [Bool.and_eq_true, Bool.not_eq_true'] at h1
      exact iff_of_true ⟨_, rfl⟩ (Or.inl ⟨h1.1, h1.2⟩)
    · exact iff_of_true ⟨_, rfl⟩ (Or.inr (Or.inl (List.length_eq_zero.mp h2)))
    · apply iff_of_false
      · rintro ⟨msg, hmsg⟩
        exact hmsg
      · rintro (⟨hc, hcc⟩ | hnil | ⟨hall, -⟩ | ⟨hall, -⟩ | ⟨hall, -⟩)
        · exact h1 (by simp [hc, hcc])
        · exact h2 (by simp [hnil])
        · rw [h3] at hall
          exact Bool.noConfusion hall
        · rw [h3] at hall
          exact Bool.noConfusion hall
        · rw [h3] at hall
          exact Bool.noConfusion hall
    · exact iff_of_true ⟨_, rfl⟩
        (Or.inr (Or.inr (Or.inl ⟨hallfalse _ h3, Option.isNone_iff_eq_none.mp h4⟩)))
    · refine iff_of_true ⟨_, rfl⟩ (Or.inr (Or.inr (Or.inr (Or.inl
        ⟨hallfalse _ h3, ?_, h5⟩))))
      intro he
      exact h4 (by rw [he]; rfl)
    · refine iff_of_true ⟨_, rfl⟩ (Or.inr (Or.inr (Or.inr (Or.inr
        ⟨hallfalse _ h3, ?_, not_not.mp h5, h6⟩))))
      intro he
      exact h4 (by rw [he]; rfl)
    · apply iff_of_false
      · rintro ⟨msg, hmsg⟩
        exact hmsg
      · rintro (⟨hc, hcc⟩ | hnil | ⟨hall, hnone⟩ | ⟨-, -, hrc⟩ | ⟨-, -, -, hlen⟩)
        · exact h1 (by simp [hc, hcc])
        · exact h2 (by simp [hnil])
        · exact h4 (by rw [hnone]; rfl)
        · exact hrc (not_not.mp h5)
        · exact h6 hlen

theorem fatal_exit_cases_witness :
    setup wArgs cListing cGit = SetupResult.fatal "error: --compact requires --compare" 1
    ∧ (1 : Nat) = 1 :=
  ⟨by decide, (fatal_exit_cases wArgs cListing cGit).1
    "error: --compact requires --compare" 1 (by decide)⟩

/-- C8 counterexample: the tool also exits with status 1, after a printed message, when
the git ordering query fails, a fatal case outside the four the claim enumerates: here
`--compact` without `--compare` does not hold, the listing is non-empty, the repository
argument is present, and the message is none of the four documented ones. -/
theorem fatal_exit_cases_counterexample :
    setup cArgs cListing cGit = SetupResult.fatal "error: sorting commit hashes failed" 1
    ∧ ¬(cArgs.compact = true ∧ cArgs.compare = false)
    ∧ cListing ≠ []
    ∧ cArgs.repo ≠ none
    ∧ "error: sorting commit hashes failed" ≠ "error: --compact requires --compare"
    ∧ "error: sorting commit hashes failed"
        ≠ "error: no versions found in '" ++ cArgs.dir ++ "'"
    ∧ "error: sorting commit hashes failed"
        ≠ "error: git repository argument required for commit hash sorting"
    ∧ "error: sorting commit hashes failed"
        ≠ "error: unexpected amount of versions after commit hash sorting" := by
  refine ⟨by decide, by decide, by decide, by decide, by decide, by decide, by decide,
    by decide⟩

/-- C6: a run that exceeds the timeout records the literal sentinel "timeout" as its
RunResult output, and processing continues with the remaining versions in both dump
mode and compare mode rather than aborting. -/
theorem timeout_sentinel_continues (rc : Int) (entry vstr : String)
    (useHashes compact : Bool) (xs ys : List Run) (st : Option (Int × String)) :
    (runResult (ExecOutcome.timedOut rc)).2 = "timeout"
    ∧ dumpMode useHashes
        (xs ++ { entry := entry, versionStr := vstr, outcome := ExecOutcome.timedOut rc } :: ys)
      = dumpMode useHashes xs
        ++ Out.txt (printLabel useHashes
              { entry := entry, versionStr := vstr, outcome := ExecOutcome.timedOut rc })
          :: Out.num rc :: Out.txt "timeout" :: dumpMode useHashes ys
    ∧ (compareLoop compact useHashes st
          ({ entry := entry, versionStr := vstr, outcome := ExecOutcome.timedOut rc } :: ys)).1
      = (compareStep compact useHashes st
            { entry := entry, versionStr := vstr, outcome := ExecOutcome.timedOut rc }).1
        ++ (compareLoop compact useHashes
              (compareStep compact useHashes st
                { entry := entry, versionStr := vstr, outcome := ExecOutcome.timedOut rc }).2
              ys).1 := by
  refine ⟨rfl, ?_, rfl⟩
  simp [dumpMode, runResult]

theorem compareLoop_final_state (compact useHashes : Bool) :
    ∀ (rs : List Run) (s0 : Int × String),
      (compareLoop compact useHashes (some s0) rs).2
        = some (rs.foldl (fun _ r => ecOut useHashes r) s0) := by
  intro rs
  induction rs with
  | nil => intro s0; rfl
  | cons r t ih =>
    intro s0
    simp only [compareLoop, compareStep, List.foldl_cons]
    exact ih (ecOut useHashes r)

theorem foldl_last (useHashes : Bool) :
    ∀ (rs : List Run) (r0 : Run),
      rs.foldl (fun _ r => ecOut useHashes r) (ecOut useHashes r0)
        = ecOut useHashes (rs.getLastD r0) := by
  intro rs
  induction rs with
  | nil => intro r0; rfl
  | cons a t ih =>
    intro r0
    simp only [List.foldl_cons, List.getLastD_cons]
    exact ih a

/-- C7: in compact compare mode on a non-empty run list, the first version's label is
always printed first; a later version's label is printed only when its exit code or
processed output changed from the retained previous result (an unchanged step prints
nothing at all); and after the loop the final retained exit code and output are always
printed once more. -/
theorem compact_mode_spec (useHashes : Bool) (r : Run) (rs : List Run) :
    (compareMode true useHashes (r :: rs)).head? = some (Out.txt (printLabel useHashes r))
    ∧ (∀ lec lout s, (runResult s.outcome).1 = lec → procOut useHashes s = lout →
        (compareStep true useHashes (some (lec, lout)) s).1 = [])
    ∧ (∀ lec lout s,
        ((runResult s.outcome).1 ≠ lec ∨ procOut useHashes s ≠ lout) →
        Out.txt (printLabel useHashes s) ∈ (compareStep true useHashes (some (lec, lout)) s).1)
    ∧ compareMode true useHashes (r :: rs)
        = (compareLoop true useHashes none (r :: rs)).1
          ++ [Out.num (runResult (rs.getLastD r).outcome).1,
              Out.txt (procOut useHashes (rs.getLastD r))] := by
  refine ⟨?_, ?_, ?_, ?_⟩
  · simp [compareMode, compareLoop, compareStep]
  · intro lec lout s h1 h2
    have hd : (decide (lec ≠ (runResult s.outcome).1)
        || decide (lout ≠ procOut useHashes s)) = false := by
      simp [h1, h2]
    simp only [compareStep]
    rw [hd]
    simp
  · intro lec lout s h
    have hd : (decide (lec ≠ (runResult s.outcome).1)
        || decide (lout ≠ procOut useHashes s)) = true := by
      rcases h with h | h
      · simp [Ne.symm h]
      · simp [Ne.symm h]
    simp only [compareStep]
    rw [hd]
    simp
  · have h2 : (compareLoop true useHashes none (r :: rs)).2
        = some (ecOut useHashes (rs.getLastD r)) := by
      simp only [compareLoop, compareStep]
      rw [compareLoop_final_state]
      exact congrArg some (foldl_last useHashes rs r)
    simp only [compareMode, h2, finalFlush]
    rfl

theorem compact_mode_spec_witness :
    ((runResult flagRun.outcome).1 = 0 ∧ procOut false flagRun = "x")
    ∧ (compareStep true false (some (0, "x")) flagRun).1 = [] :=
  ⟨⟨by decide, by decide⟩,
    (compact_mode_spec false flagRun []).2.1 0 "x" flagRun (by decide) (by decide)⟩

end Triage
